import Mathlib

/-!
Verification of the `wasi-shell` command interpreter (`src/main.rs`).

Strings are modelled as `List Char`.  The out-of-scope runtime primitives
(filesystem enumeration, canonicalization, socket accept, ...) are modelled as
an abstract `World` of oracles, except the plain file read/write pair, which is
modelled as an in-memory map so that write-then-read compositions are statable.
-/

namespace Wash

/-- Strings from the Rust source, modelled as lists of characters. -/
abbrev Str := List Char

/-- Turns a Lean string literal into its character list. -/
def str (s : String) : Str := s.toList

/-- Rust `char::is_whitespace`: the Unicode `White_Space` property
(25 code points, listed exhaustively). -/
def isRustWhitespace (c : Char) : Bool :=
  c.toNat = 0x9 || c.toNat = 0xA || c.toNat = 0xB || c.toNat = 0xC ||
  c.toNat = 0xD || c.toNat = 0x20 || c.toNat = 0x85 || c.toNat = 0xA0 ||
  c.toNat = 0x1680 ||
  (decide (0x2000 ≤ c.toNat) && decide (c.toNat ≤ 0x200A)) ||
  c.toNat = 0x2028 || c.toNat = 0x2029 || c.toNat = 0x202F ||
  c.toNat = 0x205F || c.toNat = 0x3000

/-- Rust `str::trim_start` (with the `White_Space` predicate). -/
def trimStart (s : Str) : Str := s.dropWhile isRustWhitespace

/-- Rust `str::trim_end`. -/
def trimEnd (s : Str) : Str := (s.reverse.dropWhile isRustWhitespace).reverse

/-- Rust `str::trim`: leading and trailing whitespace removed. -/
def trim (s : Str) : Str := trimEnd (trimStart s)

/-- Rust `str::strip_prefix` with a single-character pattern. -/
def stripPfx (c : Char) : Str → Option Str
  | [] => none
  | x :: xs => if x = c then some xs else none

/-- Rust `str::strip_suffix` with a single-character pattern. -/
def stripSfx (c : Char) (s : Str) : Option Str :=
  if s.getLast? = some c then some s.dropLast else none

/-- `strip_surround::<C>` from the source:
`s.strip_prefix(C).and_then(|s| s.strip_suffix(C))`. -/
def strip_surround (c : Char) (s : Str) : Option Str :=
  (stripPfx c s).bind (stripSfx c)

/-- Fuelled version of the source's recursive `unquote`.  The fuel only
serves termination; `unquote` instantiates it with enough fuel and
`unquoteF_congr` below shows the value is fuel-independent. -/
def unquoteF : Nat → Str → Str
  | 0, s => trim s
  | fuel + 1, s =>
    let t := trim s
    let s1 := match strip_surround '"' t with
      | some inner => unquoteF fuel inner
      | none => t
    match strip_surround '\'' s1 with
    | some inner => unquoteF fuel inner
    | none => s1

/-- `unquote` from the source: trim, strip a surrounding double-quote pair
(recursing), then strip a surrounding single-quote pair of the result
(recursing). -/
def unquote (s : Str) : Str := unquoteF s.length s

/-- The double-quote stage of `unquote`: the value named `s1` in the source. -/
def unquoteDq (s : Str) : Str :=
  match strip_surround '"' (trim s) with
  | some inner => unquote inner
  | none => trim s

theorem stripPfx_eq_some {c : Char} {s r : Str} (h : stripPfx c s = some r) :
    s = c :: r := by
  cases s with
  | nil => simp [stripPfx] at h
  | cons x xs =>
    simp only [stripPfx] at h
    split at h
    · next hx => cases h; exact hx ▸ rfl
    · cases h

theorem stripSfx_eq_some {c : Char} {s r : Str} (h : stripSfx c s = some r) :
    s = r ++ [c] := by
  simp only [stripSfx] at h
  split at h
  · next hl =>
    cases h
    have hne : s ≠ [] := by
      intro he; subst he; simp at hl
    have := List.dropLast_append_getLast hne
    rw [List.getLast?_eq_getLast s hne] at hl
    cases hl
    simpa using this.symm
  · cases h

theorem strip_surround_eq_some {c : Char} {s r : Str}
    (h : strip_surround c s = some r) : s = c :: (r ++ [c]) := by
  simp only [strip_surround, Option.bind_eq_some] at h
  obtain ⟨t, ht, hs⟩ := h
  rw [stripPfx_eq_some ht, stripSfx_eq_some hs]

theorem strip_surround_length {c : Char} {s r : Str}
    (h : strip_surround c s = some r) : r.length + 2 = s.length := by
  rw [strip_surround_eq_some h]
  simp

theorem length_dropWhile_le' (p : Char → Bool) (s : Str) :
    (s.dropWhile p).length ≤ s.length :=
  (List.dropWhile_suffix p).sublist.length_le

theorem length_trimStart_le (s : Str) : (trimStart s).length ≤ s.length :=
  length_dropWhile_le' isRustWhitespace s

theorem length_trimEnd_le (s : Str) : (trimEnd s).length ≤ s.length := by
  simpa [trimEnd] using length_dropWhile_le' isRustWhitespace s.reverse

theorem length_trim_le (s : Str) : (trim s).length ≤ s.length :=
  (length_trimEnd_le (trimStart s)).trans (length_trimStart_le s)

theorem unquoteF_succ_eq (fuel : Nat) (s : Str) :
    unquoteF (fuel + 1) s =
      match strip_surround '\'' (match strip_surround '"' (trim s) with
        | some inner => unquoteF fuel inner
        | none => trim s) with
      | some inner => unquoteF fuel inner
      | none => match strip_surround '"' (trim s) with
        | some inner => unquoteF fuel inner
        | none => trim s := rfl

theorem length_unquoteF_le : ∀ (fuel : Nat) (s : Str),
    (unquoteF fuel s).length ≤ (trim s).length := by
  intro fuel
  induction fuel with
  | zero => intro s; exact le_rfl
  | succ fuel ih =>
    intro s
    rw [unquoteF_succ_eq]
    cases h1 : strip_surround '"' (trim s) with
    | none =>
      simp only [h1]
      cases h2 : strip_surround '\'' (trim s) with
      | none => simp only [h2]; exact le_rfl
      | some inner =>
        simp only [h2]
        have ha := ih inner
        have hb := length_trim_le inner
        have hc := strip_surround_length h2
        omega
    | some inner =>
      simp only [h1]
      have ha := ih inner
      have hb := length_trim_le inner
      have hc := strip_surround_length h1
      cases h2 : strip_surround '\'' (unquoteF fuel inner) with
      | none => simp only [h2]; omega
      | some inner2 =>
        simp only [h2]
        have hd := ih inner2
        have he := length_trim_le inner2
        have hf := strip_surround_length h2
        omega

theorem unquoteF_succ : ∀ (fuel : Nat) (s : Str), s.length ≤ 2 * fuel →
    unquoteF (fuel + 1) s = unquoteF fuel s := by
  intro fuel
  induction fuel with
  | zero =>
    intro s hs
    have h0 : s = [] := List.length_eq_zero.mp (Nat.le_zero.mp hs)
    subst h0
    rfl
  | succ fuel ih =>
    intro s hs
    rw [unquoteF_succ_eq (fuel + 1), unquoteF_succ_eq fuel]
    cases h1 : strip_surround '"' (trim s) with
    | none =>
      simp only [h1]
      cases h2 : strip_surround '\'' (trim s) with
      | none => simp only [h2]
      | some inner =>
        simp only [h2]
        have hc := strip_surround_length h2
        have hd := length_trim_le s
        exact ih inner (by omega)
    | some inner =>
      simp only [h1]
      have hc := strip_surround_length h1
      have hd := length_trim_le s
      have he : unquoteF (fuel + 1) inner = unquoteF fuel inner :=
        ih inner (by omega)
      rw [he]
      cases h2 : strip_surround '\'' (unquoteF fuel inner) with
      | none => simp only [h2]
      | some inner2 =>
        simp only [h2]
        have hf := strip_surround_length h2
        have hg := length_unquoteF_le fuel inner
        have hh := length_trim_le inner
        exact ih inner2 (by omega)

theorem unquoteF_mono {f g : Nat} (s : Str) (hf : s.length ≤ 2 * f)
    (hfg : f ≤ g) : unquoteF g s = unquoteF f s := by
  induction hfg with
  | refl => rfl
  | @step k hk ih =>
    have hk' : f ≤ k := hk
    rw [unquoteF_succ k s (by omega)]
    exact ih

theorem unquoteF_congr {f g : Nat} (s : Str) (hf : s.length ≤ 2 * f)
    (hg : s.length ≤ 2 * g) : unquoteF f s = unquoteF g s := by
  rcases le_total f g with h | h
  · exact (unquoteF_mono s hf h).symm
  · exact unquoteF_mono s hg h

theorem length_unquote_le (s : Str) : (unquote s).length ≤ (trim s).length :=
  length_unquoteF_le s.length s

theorem unquote_eq (s : Str) :
    unquote s = match strip_surround '\'' (unquoteDq s) with
      | some inner => unquote inner
      | none => unquoteDq s := by
  cases hn : s.length with
  | zero =>
    have h0 : s = [] := List.length_eq_zero.mp (by omega)
    subst h0
    rfl
  | succ n =>
    have hu : unquote s = unquoteF (n + 1) s := by rw [unquote, hn]
    rw [hu, unquoteF_succ_eq]
    cases h1 : strip_surround '"' (trim s) with
    | none =>
      simp only [unquoteDq, h1]
      cases h2 : strip_surround '\'' (trim s) with
      | none => simp only [h2]
      | some inner =>
        simp only [h2]
        rw [unquote]
        have ha := strip_surround_length h2
        have hb := length_trim_le s
        exact unquoteF_congr inner (by omega) (by omega)
    | some inner =>
      simp only [unquoteDq, h1]
      have ha := strip_surround_length h1
      have hb := length_trim_le s
      have he : unquoteF n inner = unquote inner := by
        rw [unquote]
        exact unquoteF_congr inner (by omega) (by omega)
      rw [he]
      cases h2 : strip_surround '\'' (unquote inner) with
      | none => simp only [h2]
      | some inner2 =>
        simp only [h2]
        rw [unquote]
        have hc := strip_surround_length h2
        have hd := length_unquote_le inner
        have hhh := length_trim_le inner
        exact unquoteF_congr inner2 (by omega) (by omega)

theorem length_unquoteDq_le (s : Str) :
    (unquoteDq s).length ≤ (trim s).length := by
  unfold unquoteDq
  cases h1 : strip_surround '"' (trim s) with
  | none => simp only [h1]; exact le_rfl
  | some inner =>
    simp only [h1]
    have ha := length_unquote_le inner
    have hb := length_trim_le inner
    have hc := strip_surround_length h1
    omega

theorem dropWhile_idem (p : Char → Bool) (l : Str) :
    (l.dropWhile p).dropWhile p = l.dropWhile p := by
  induction l with
  | nil => rfl
  | cons x xs ih =>
    cases hp : p x with
    | true => simp [List.dropWhile_cons, hp, ih]
    | false => simp [List.dropWhile_cons, hp]

theorem dropWhile_eq_self_of_append (p : Char → Bool) (l1 l2 : Str)
    (h : (l1 ++ l2).dropWhile p = l1 ++ l2) : l1.dropWhile p = l1 := by
  cases l1 with
  | nil => rfl
  | cons x xs =>
    have hp : p x = false := by
      cases hp : p x with
      | false => rfl
      | true =>
        rw [List.cons_append, List.dropWhile_cons_of_pos hp] at h
        have hle := length_dropWhile_le' p (xs ++ l2)
        rw [h] at hle
        simp only [List.length_cons] at hle
        exact absurd hle (by omega)
    simp [List.dropWhile_cons, hp]

theorem trimEnd_append_eq (s : Str) :
    trimEnd s ++ (s.reverse.takeWhile isRustWhitespace).reverse = s := by
  rw [trimEnd, ← List.reverse_append, List.takeWhile_append_dropWhile,
    List.reverse_reverse]

theorem trimStart_trimEnd_trimStart (s : Str) :
    trimStart (trimEnd (trimStart s)) = trimEnd (trimStart s) := by
  have h1 : (trimStart s).dropWhile isRustWhitespace = trimStart s :=
    dropWhile_idem _ s
  have h2 := trimEnd_append_eq (trimStart s)
  exact dropWhile_eq_self_of_append _ _ _ (by rw [h2]; exact h1)

theorem trimEnd_trimEnd (s : Str) : trimEnd (trimEnd s) = trimEnd s := by
  simp [trimEnd, List.reverse_reverse, dropWhile_idem]

theorem trim_trim (s : Str) : trim (trim s) = trim s := by
  rw [trim, trim, trimStart_trimEnd_trimStart s, trimEnd_trimEnd]

theorem unquote_invariant : ∀ (n : Nat) (s : Str), s.length ≤ n →
    strip_surround '\'' (unquote s) = none ∧
    strip_surround '"' (unquote s) = none ∧
    trim (unquote s) = unquote s := by
  intro n
  induction n with
  | zero =>
    intro s hs
    have h0 : s = [] := List.length_eq_zero.mp (Nat.le_zero.mp hs)
    subst h0
    exact ⟨rfl, rfl, rfl⟩
  | succ n ih =>
    intro s hs
    rw [unquote_eq s]
    cases h2 : strip_surround '\'' (unquoteDq s) with
    | some inner2 =>
      simp only [h2]
      have ha := strip_surround_length h2
      have hb := length_unquoteDq_le s
      have hc := length_trim_le s
      exact ih inner2 (by omega)
    | none =>
      simp only [h2]
      refine ⟨trivial, ?_⟩
      unfold unquoteDq
      cases h1 : strip_surround '"' (trim s) with
      | some inner =>
        simp only [h1]
        have ha := strip_surround_length h1
        have hb := length_trim_le s
        exact ⟨(ih inner (by omega)).2.1, (ih inner (by omega)).2.2⟩
      | none =>
        simp only [h1]
        simp [trim_trim]

theorem strip_squote_unquote (s : Str) :
    strip_surround '\'' (unquote s) = none :=
  (unquote_invariant s.length s le_rfl).1

theorem strip_dquote_unquote (s : Str) :
    strip_surround '"' (unquote s) = none :=
  (unquote_invariant s.length s le_rfl).2.1

theorem trim_unquote (s : Str) : trim (unquote s) = unquote s :=
  (unquote_invariant s.length s le_rfl).2.2

/-- The quoting parser exactly as the specification words it: trim, then if a
matching double-quote pair surrounds the result strip it and recurse, otherwise
do the same for a single-quote pair, otherwise return the trimmed string.
(Fuelled for termination, like `unquoteF`.) -/
def unquoteSpecF : Nat → Str → Str
  | 0, s => trim s
  | fuel + 1, s =>
    match strip_surround '"' (trim s) with
    | some inner => unquoteSpecF fuel inner
    | none => match strip_surround '\'' (trim s) with
      | some inner => unquoteSpecF fuel inner
      | none => trim s

/-- The specification's description of the quoting parser (see `unquoteSpecF`). -/
def unquoteSpec (s : Str) : Str := unquoteSpecF s.length s

theorem unquoteSpecF_succ_eq (fuel : Nat) (s : Str) :
    unquoteSpecF (fuel + 1) s =
      match strip_surround '"' (trim s) with
      | some inner => unquoteSpecF fuel inner
      | none => match strip_surround '\'' (trim s) with
        | some inner => unquoteSpecF fuel inner
        | none => trim s := rfl

theorem unquoteSpecF_succ : ∀ (fuel : Nat) (s : Str), s.length ≤ 2 * fuel →
    unquoteSpecF (fuel + 1) s = unquoteSpecF fuel s := by
  intro fuel
  induction fuel with
  | zero =>
    intro s hs
    have h0 : s = [] := List.length_eq_zero.mp (Nat.le_zero.mp hs)
    subst h0
    rfl
  | succ fuel ih =>
    intro s hs
    rw [unquoteSpecF_succ_eq (fuel + 1), unquoteSpecF_succ_eq fuel]
    cases h1 : strip_surround '"' (trim s) with
    | some inner =>
      simp only [h1]
      have hc := strip_surround_length h1
      have hd := length_trim_le s
      exact ih inner (by omega)
    | none =>
      simp only [h1]
      cases h2 : strip_surround '\'' (trim s) with
      | some inner =>
        simp only [h2]
        have hc := strip_surround_length h2
        have hd := length_trim_le s
        exact ih inner (by omega)
      | none => simp only [h2]

theorem unquoteSpecF_mono {f g : Nat} (s : Str) (hf : s.length ≤ 2 * f)
    (hfg : f ≤ g) : unquoteSpecF g s = unquoteSpecF f s := by
  induction hfg with
  | refl => rfl
  | @step k hk ih =>
    have hk' : f ≤ k := hk
    rw [unquoteSpecF_succ k s (by omega)]
    exact ih

theorem unquoteSpecF_congr {f g : Nat} (s : Str) (hf : s.length ≤ 2 * f)
    (hg : s.length ≤ 2 * g) : unquoteSpecF f s = unquoteSpecF g s := by
  rcases le_total f g with h | h
  · exact (unquoteSpecF_mono s hf h).symm
  · exact unquoteSpecF_mono s hg h

theorem unquoteSpec_eq (s : Str) :
    unquoteSpec s = match strip_surround '"' (trim s) with
      | some inner => unquoteSpec inner
      | none => match strip_surround '\'' (trim s) with
        | some inner => unquoteSpec inner
        | none => trim s := by
  cases hn : s.length with
  | zero =>
    have h0 : s = [] := List.length_eq_zero.mp (by omega)
    subst h0
    rfl
  | succ n =>
    have hu : unquoteSpec s = unquoteSpecF (n + 1) s := by rw [unquoteSpec, hn]
    rw [hu, unquoteSpecF_succ_eq]
    cases h1 : strip_surround '"' (trim s) with
    | some inner =>
      simp only [h1]
      rw [unquoteSpec]
      have ha := strip_surround_length h1
      have hb := length_trim_le s
      exact unquoteSpecF_congr inner (by omega) (by omega)
    | none =>
      simp only [h1]
      cases h2 : strip_surround '\'' (trim s) with
      | some inner =>
        simp only [h2]
        rw [unquoteSpec]
        have ha := strip_surround_length h2
        have hb := length_trim_le s
        exact unquoteSpecF_congr inner (by omega) (by omega)
      | none => simp only [h2]

theorem unquote_eq_unquoteSpec : ∀ (n : Nat) (s : Str), s.length ≤ n →
    unquote s = unquoteSpec s := by
  intro n
  induction n with
  | zero =>
    intro s hs
    have h0 : s = [] := List.length_eq_zero.mp (Nat.le_zero.mp hs)
    subst h0
    rfl
  | succ n ih =>
    intro s hs
    rw [unquote_eq s, unquoteSpec_eq s]
    unfold unquoteDq
    cases h1 : strip_surround '"' (trim s) with
    | some inner =>
      simp only [h1, strip_squote_unquote inner]
      have ha := strip_surround_length h1
      have hb := length_trim_le s
      exact ih inner (by omega)
    | none =>
      simp only [h1]
      cases h2 : strip_surround '\'' (trim s) with
      | some inner =>
        simp only [h2]
        have ha := strip_surround_length h2
        have hb := length_trim_le s
        exact ih inner (by omega)
      | none => simp only [h2]

/-- Claim C1: `unquote` first trims surrounding whitespace, then, if the trimmed
result is surrounded by a matching double-quote pair, strips it and recurses;
otherwise does the same for a matching single-quote pair; otherwise returns the
trimmed string unchanged.  The nested alternating example fully peels, and a
string with no matching surrounding pair is only whitespace-trimmed. -/
theorem c1_unquote_matches_spec :
    (∀ s : Str, unquote s = unquoteSpec s) ∧
    unquote (str "  \"'a'\"  ") = str "a" ∧
    (∀ s : Str, strip_surround '"' (trim s) = none →
      strip_surround '\'' (trim s) = none → unquote s = trim s) := by
  refine ⟨fun s => unquote_eq_unquoteSpec s.length s le_rfl, by decide,
    fun s h1 h2 => ?_⟩
  rw [unquote_eq s]
  unfold unquoteDq
  simp only [h1, h2]

/-- Witness for C1 at concrete inputs: the spec equivalence at `"ab"` and the
one-sided-quote case at `"\"abc"`. -/
theorem c1_unquote_matches_spec_witness :
    unquote (str "ab") = unquoteSpec (str "ab") ∧
    unquote (str "\"abc") = trim (str "\"abc") :=
  ⟨c1_unquote_matches_spec.1 (str "ab"),
   c1_unquote_matches_spec.2.2 (str "\"abc") (by decide) (by decide)⟩

/-- Claim C9: unquoting is idempotent: `unquote (unquote s) = unquote s` for
every string `s`. -/
theorem c9_unquote_idempotent (s : Str) :
    unquote (unquote s) = unquote s := by
  rw [unquote_eq (unquote s)]
  unfold unquoteDq
  simp only [trim_unquote s, strip_dquote_unquote s, strip_squote_unquote s]

/-! ### The effectful layer

Errors are modelled as the chain of `anyhow` context messages, outermost
first: `bail!(msg)` is `[msg]` and `with_context(msg)` prepends `msg`.
The runtime primitives the spec declares out of scope (canonicalize, the
`File::open` existence check, directory enumeration, the socket accept and
its stream) are a `World` of oracles; the plain file read/write pair is an
in-memory path-to-contents map so that write-then-read compositions are
statable.  Byte strings are modelled as `Str`, exact for data originating
from UTF-8 text. -/

/-- An `anyhow` error: the chain of context messages, outermost first. -/
abbrev Err := List Str

/-- `Context::with_context`: prepend a context message to an error chain. -/
def ctx (msg : Str) (e : Err) : Err := msg :: e

/-- The in-memory model of the file store backing `fs::read` / `fs::write`. -/
abbrev FS := List (Str × Str)

/-- First-match lookup in the file store. -/
def lookupFS : FS → Str → Option Str
  | [], _ => none
  | (q, v) :: rest, p => if q = p then some v else lookupFS rest p

/-- `std::fs::write` (truncating): the new binding shadows any previous one. -/
def fsWrite (fs : FS) (p v : Str) : FS := (p, v) :: fs

/-- `std::fs::read` against the in-memory store (missing path = read error). -/
def fsReadRaw (fs : FS) (p : Str) : Except Err Str :=
  match lookupFS fs p with
  | some v => .ok v
  | none => .error [str "no such file or directory"]

/-- The out-of-scope runtime primitives, as oracles.  `isAlphanumeric` stands
for Rust `char::is_alphanumeric` (full Unicode `Alphabetic`/`Number`, not
embeddable as a table); `canonicalize` is `Utf8Path::canonicalize_utf8`
(under `cfg(unix)`; the wasi build is the instance `canonicalize := pure`);
`fileOpen` is the `File::open` readability check; `writeGate` decides whether
`fs::write` to a path succeeds; `readDir` yields the entries of a directory
(each either a name or an underlying entry error); `openListener` is
`File::options().read(true).write(true).open` plus the infallible
`into_listener` reinterpretation; `acceptConn` is `TcpListener::accept`; and
`readStream` is `read_to_end` on the accepted stream, keyed by the listener
path (this shell accepts a single connection per invocation). -/
structure World where
  isAlphanumeric : Char → Bool
  canonicalize : Str → Except Err Str
  fileOpen : Str → Except Err Unit
  writeGate : Str → Except Err Unit
  readDir : Str → Except Err (List (Except Err Str))
  openListener : Str → Except Err Unit
  acceptConn : Str → Except Err Unit
  readStream : Str → Except Err Str

/-- `WorkingDir`: the interpreter's current location (a UTF-8 path). -/
structure WorkingDir where
  path : Str
deriving DecidableEq

/-- `Utf8Path::is_absolute` on unix/wasi: has a root, i.e. starts with `/`. -/
def isAbsolute (p : Str) : Bool := p.head? = some '/'

/-- `Utf8PathBuf::join` (clone + push): an absolute argument replaces the
base; otherwise a separator is inserted unless the base is empty or already
ends in one. -/
def join (base p : Str) : Str :=
  if isAbsolute p then p
  else if base = [] then base ++ p
  else if base.getLast? = some '/' then base ++ p
  else base ++ '/' :: p

/-- `WorkingDir::open`: canonicalize (`cfg(unix)`; identity world on wasi),
then check readability via `File::open`, and wrap the canonical path. -/
def WorkingDir.openDir (w : World) (p : Str) : Except Err WorkingDir :=
  match w.canonicalize p with
  | .error e => .error (ctx (str "failed to canonicalize path") e)
  | .ok c =>
    match w.fileOpen c with
    | .error e => .error (ctx (str "failed to open `" ++ c ++ str "`") e)
    | .ok _ => .ok ⟨c⟩

/-- `str::split_once`: split at the first occurrence of the character. -/
def splitOnce (c : Char) : Str → Option (Str × Str)
  | [] => none
  | x :: xs =>
    if x = c then some ([], xs)
    else match splitOnce c xs with
      | some (l, r) => some (x :: l, r)
      | none => none

/-- `str::rsplit_once`: split at the last occurrence of the character
(returned as `(before, after)` in source order). -/
def rsplitOnce (c : Char) : Str → Option (Str × Str)
  | [] => none
  | x :: xs =>
    match rsplitOnce c xs with
    | some (l, r) => some (x :: l, r)
    | none => if x = c then some ([], xs) else none

/-- The `COMMANDS` array from the source, in source order. -/
def COMMANDS : List Str :=
  [str "accept", str "cat", str "cd", str "help", str "echo", str "exit",
   str "ls", str "pwd"]

def ACCEPT_USAGE : Str := str "Usage: accept FILE"

def CAT_USAGE : Str := str "Usage: cat FILE"

def ECHO_USAGE : Str := str "Usage: echo [WORD|\"TEXT\"|'TEXT'] > FILE"

def EXIT_USAGE : Str := str "Usage: exit"

def HELP_USAGE : Str := str "Usage: help"

def PWD_USAGE : Str := str "Usage: pwd"

/-- The `accept` handler: join the unquoted path onto the working directory,
open it read/write as a listener, accept one connection, read the stream to
end. -/
def accept (w : World) (dir : WorkingDir) (path : Str) : Except Err Str :=
  let p := join dir.path (unquote path)
  match w.openListener p with
  | .error e => .error (ctx (str "failed to open `" ++ p ++ str "`") e)
  | .ok _ =>
    match w.acceptConn p with
    | .error e =>
      .error (ctx (str "failed to accept connection on `" ++ p ++ str "`") e)
    | .ok _ =>
      match w.readStream p with
      | .error e => .error (ctx (str "failed to read from stream") e)
      | .ok buf => .ok buf

/-- The `cat` handler: join the unquoted path onto the working directory and
read the whole file. -/
def cat (fs : FS) (dir : WorkingDir) (path : Str) : Except Err Str :=
  let p := join dir.path (unquote path)
  match fsReadRaw fs p with
  | .error e => .error (ctx (str "failed to read `" ++ p ++ str "`") e)
  | .ok v => .ok v

/-- The `cd` handler: unquote; an absolute path is opened directly, a
relative one is joined onto the working directory first. -/
def cd (w : World) (dir : WorkingDir) (path : Str) : Except Err WorkingDir :=
  let q := unquote path
  if isAbsolute q then WorkingDir.openDir w q
  else WorkingDir.openDir w (join dir.path q)

/-- The `echo` handler: split the remainder at the last `>`, unquote both
halves, join the path half onto the working directory, and write (truncating)
the unquoted text. -/
def echo (w : World) (fs : FS) (dir : WorkingDir) (args : Str) :
    Except Err FS :=
  match rsplitOnce '>' args with
  | none => .error [str "missing `>`"]
  | some (text, path) =>
    let text := unquote text
    let p := join dir.path (unquote path)
    match w.writeGate p with
    | .error e =>
      .error (ctx (str "failed to write `" ++ text ++ str "` to `" ++ p ++
        str "`") e)
    | .ok _ => .ok (fsWrite fs p text)

/-- The `help` handler's fixed output. -/
def help : Str := str "Available commands: " ++ List.intercalate (str ", ") COMMANDS

/-- `format_dir`: collect entry names (first entry error aborts, with its
context message), then join them with single spaces. -/
def collectEntries : List (Except Err Str) → Except Err (List Str)
  | [] => .ok []
  | .error e :: _ => .error (ctx (str "failed to read directory entry") e)
  | .ok name :: rest =>
    match collectEntries rest with
    | .error e => .error e
    | .ok names => .ok (name :: names)

def formatDir (entries : List (Except Err Str)) : Except Err Str :=
  match collectEntries entries with
  | .error e => .error e
  | .ok names => .ok (List.intercalate (str " ") names)

/-- The `ls` handler: enumerate the joined unquoted argument, or the working
directory when there is no argument. -/
def ls (w : World) (dir : WorkingDir) (path : Option Str) : Except Err Str :=
  match path with
  | some p =>
    let q := join dir.path (unquote p)
    match w.readDir q with
    | .error e => .error (ctx (str "failed to list directory `" ++ q ++ str "`") e)
    | .ok entries => formatDir entries
  | none =>
    match w.readDir dir.path with
    | .error e =>
      .error (ctx (str "failed to list working directory contents in `" ++
        dir.path ++ str "`") e)
    | .ok entries => formatDir entries

/-- The `pwd` handler: the working directory path, no trailing newline. -/
def pwd (dir : WorkingDir) : Str := dir.path

/-- `Effect`: the three-channel result of interpreting one line. -/
structure Effect where
  dir : Option WorkingDir := none
  out : Option Str := none
  exit : Option Int := none
deriving DecidableEq

/-- `Effect::default()`: no visible effect. -/
def noEffect : Effect := {}

/-- The `exit` handler: an effect requesting termination with code 0. -/
def exitCommand : Effect := { exit := some 0 }

/-- The dispatcher `handle`: trim the line; empty is a no-effect success; a
non-alphanumeric leading character is a parse error; otherwise split at the
first space into keyword and remainder and route, enforcing each command's
argument shape.  The file-store state is threaded explicitly (only `echo`
changes it). -/
def handle (w : World) (fs : FS) (dir : WorkingDir) (line : Str) :
    Except Err (Effect × FS) :=
  let t := trim line
  match t with
  | [] => .ok (noEffect, fs)
  | c :: _ =>
    if w.isAlphanumeric c = false then
      .error [str "line must start with an alphanumeric character or whitespace"]
    else
      match splitOnce ' ' t with
      | none =>
        if t = str "accept" then .error [ACCEPT_USAGE]
        else if t = str "cat" then .error [CAT_USAGE]
        else if t = str "cd" then .ok (noEffect, fs)
        else if t = str "echo" then .error [ECHO_USAGE]
        else if t = str "exit" then .ok (exitCommand, fs)
        else if t = str "help" then .ok ({ out := some help }, fs)
        else if t = str "ls" then
          match ls w dir none with
          | .error e => .error e
          | .ok o => .ok ({ out := some o }, fs)
        else if t = str "pwd" then .ok ({ out := some (pwd dir) }, fs)
        else .error [str "failed to parse line"]
      | some (kw, rest) =>
        if kw = str "accept" then
          match accept w dir rest with
          | .error e => .error e
          | .ok o => .ok ({ out := some o }, fs)
        else if kw = str "cat" then
          match cat fs dir rest with
          | .error e => .error e
          | .ok o => .ok ({ out := some o }, fs)
        else if kw = str "cd" then
          match cd w dir rest with
          | .error e => .error e
          | .ok d => .ok ({ dir := some d }, fs)
        else if kw = str "echo" then
          match echo w fs dir rest with
          | .error e => .error e
          | .ok fs2 => .ok (noEffect, fs2)
        else if kw = str "exit" then .error [EXIT_USAGE]
        else if kw = str "help" then .error [HELP_USAGE]
        else if kw = str "ls" then
          match ls w dir (some rest) with
          | .error e => .error e
          | .ok o => .ok ({ out := some o }, fs)
        else if kw = str "pwd" then .error [PWD_USAGE]
        else .error [str "failed to parse line"]

/-- The observable state threaded by the REPL loop in `main`: the working
directory and file store, the outputs written to standard output (each line
of output followed by a newline, recorded as a list), the errors rendered to
the diagnostic stream, and the exit request. -/
structure LoopState where
  dir : WorkingDir
  fs : FS
  out : List Str
  diag : List Err
  exitCode : Option Int
deriving DecidableEq

/-- One iteration of `main`'s fold: interpret the line, print any output,
honour an exit request (which short-circuits the fold), adopt a new working
directory, and on any error render it to diagnostics and keep the state. -/
def stepLine (w : World) (st : LoopState) (line : Str) : LoopState :=
  match handle w st.fs st.dir line with
  | .error e => { st with diag := st.diag ++ [e] }
  | .ok (eff, fs2) =>
    let st1 := { st with fs := fs2 }
    let st2 := match eff.out with
      | some o => { st1 with out := st1.out ++ [o] }
      | none => st1
    match eff.exit with
    | some code => { st2 with exitCode := some code }
    | none =>
      match eff.dir with
      | some d => { st2 with dir := d }
      | none => st2

/-- `main`'s line fold: process lines in order; a set exit code (from
`process::exit`) stops all further processing. -/
def runLines (w : World) : LoopState → List Str → LoopState
  | st, [] => st
  | st, l :: ls =>
    let st2 := stepLine w st l
    match st2.exitCode with
    | some _ => st2
    | none => runLines w st2 ls

/-- A benign world used by concrete witnesses (any oracle choice is a valid
instantiation of the out-of-scope runtime). -/
def w0 : World :=
  { isAlphanumeric := fun c => c.isAlphanum
    canonicalize := fun p => .ok p
    fileOpen := fun _ => .ok ()
    writeGate := fun _ => .ok ()
    readDir := fun _ => .ok []
    openListener := fun _ => .ok ()
    acceptConn := fun _ => .ok ()
    readStream := fun _ => .ok [] }

theorem splitOnce_append (c : Char) (l r : Str) (hl : c ∉ l) :
    splitOnce c (l ++ c :: r) = some (l, r) := by
  induction l with
  | nil => simp [splitOnce]
  | cons x xs ih =>
    have hx : ¬x = c := by
      intro he; exact hl (he ▸ List.mem_cons_self x xs)
    have hxs : c ∉ xs := fun hm => hl (List.mem_cons_of_mem x hm)
    have hstep : splitOnce c ((x :: xs) ++ c :: r) =
        (if x = c then some ([], xs ++ c :: r) else
          match splitOnce c (xs ++ c :: r) with
          | some (l, r) => some (x :: l, r)
          | none => none) := rfl
    rw [hstep, if_neg hx, ih hxs]

theorem handle_blank (w : World) (fs : FS) (dir : WorkingDir) (line : Str)
    (htrim : trim line = []) : handle w fs dir line = .ok (noEffect, fs) := by
  simp only [handle, htrim]

theorem handle_not_alnum (w : World) (fs : FS) (dir : WorkingDir)
    (line : Str) (c : Char) (cs : Str) (htrim : trim line = c :: cs)
    (halpha : w.isAlphanumeric c = false) :
    handle w fs dir line =
      .error [str "line must start with an alphanumeric character or whitespace"] := by
  simp [handle, htrim, halpha]

theorem handle_bare_exit (w : World) (fs : FS) (dir : WorkingDir)
    (line : Str) (htrim : trim line = str "exit")
    (halpha : w.isAlphanumeric 'e' = true) :
    handle w fs dir line = .ok (exitCommand, fs) := by
  have hc : trim line = 'e' :: str "xit" := by rw [htrim]; rfl
  simp only [handle, hc, halpha]
  rfl

theorem handle_arg_exit (w : World) (fs : FS) (dir : WorkingDir)
    (line r : Str) (htrim : trim line = str "exit" ++ ' ' :: r)
    (halpha : w.isAlphanumeric 'e' = true) :
    handle w fs dir line = .error [EXIT_USAGE] := by
  have hc : trim line = 'e' :: (str "xit" ++ ' ' :: r) := by rw [htrim]; rfl
  have hsplit : splitOnce ' ' ('e' :: (str "xit" ++ ' ' :: r)) =
      some (str "exit", r) := splitOnce_append ' ' (str "exit") r (by decide)
  simp only [handle, hc, halpha, hsplit]
  rfl

theorem handle_bare_accept (w : World) (fs : FS) (dir : WorkingDir)
    (line : Str) (htrim : trim line = str "accept")
    (halpha : w.isAlphanumeric 'a' = true) :
    handle w fs dir line = .error [ACCEPT_USAGE] := by
  have hc : trim line = 'a' :: str "ccept" := by rw [htrim]; rfl
  simp only [handle, hc, halpha]
  rfl

theorem handle_bare_cat (w : World) (fs : FS) (dir : WorkingDir)
    (line : Str) (htrim : trim line = str "cat")
    (halpha : w.isAlphanumeric 'c' = true) :
    handle w fs dir line = .error [CAT_USAGE] := by
  have hc : trim line = 'c' :: str "at" := by rw [htrim]; rfl
  simp only [handle, hc, halpha]
  rfl

theorem handle_bare_cd (w : World) (fs : FS) (dir : WorkingDir)
    (line : Str) (htrim : trim line = str "cd")
    (halpha : w.isAlphanumeric 'c' = true) :
    handle w fs dir line = .ok (noEffect, fs) := by
  have hc : trim line = 'c' :: str "d" := by rw [htrim]; rfl
  simp only [handle, hc, halpha]
  rfl

theorem handle_bare_echo (w : World) (fs : FS) (dir : WorkingDir)
    (line : Str) (htrim : trim line = str "echo")
    (halpha : w.isAlphanumeric 'e' = true) :
    handle w fs dir line = .error [ECHO_USAGE] := by
  have hc : trim line = 'e' :: str "cho" := by rw [htrim]; rfl
  simp only [handle, hc, halpha]
  rfl

theorem handle_arg_help (w : World) (fs : FS) (dir : WorkingDir)
    (line r : Str) (htrim : trim line = str "help" ++ ' ' :: r)
    (halpha : w.isAlphanumeric 'h' = true) :
    handle w fs dir line = .error [HELP_USAGE] := by
  have hc : trim line = 'h' :: (str "elp" ++ ' ' :: r) := by rw [htrim]; rfl
  have hsplit : splitOnce ' ' ('h' :: (str "elp" ++ ' ' :: r)) =
      some (str "help", r) := splitOnce_append ' ' (str "help") r (by decide)
  simp only [handle, hc, halpha, hsplit]
  rfl

theorem handle_arg_pwd (w : World) (fs : FS) (dir : WorkingDir)
    (line r : Str) (htrim : trim line = str "pwd" ++ ' ' :: r)
    (halpha : w.isAlphanumeric 'p' = true) :
    handle w fs dir line = .error [PWD_USAGE] := by
  have hc : trim line = 'p' :: (str "wd" ++ ' ' :: r) := by rw [htrim]; rfl
  have hsplit : splitOnce ' ' ('p' :: (str "wd" ++ ' ' :: r)) =
      some (str "pwd", r) := splitOnce_append ' ' (str "pwd") r (by decide)
  simp only [handle, hc, halpha, hsplit]
  rfl

theorem handle_arg_echo (w : World) (fs : FS) (dir : WorkingDir)
    (line r : Str) (htrim : trim line = str "echo" ++ ' ' :: r)
    (halpha : w.isAlphanumeric 'e' = true) :
    handle w fs dir line =
      match echo w fs dir r with
      | .error e => .error e
      | .ok fs2 => .ok (noEffect, fs2) := by
  have hc : trim line = 'e' :: (str "cho" ++ ' ' :: r) := by rw [htrim]; rfl
  have hsplit : splitOnce ' ' ('e' :: (str "cho" ++ ' ' :: r)) =
      some (str "echo", r) := splitOnce_append ' ' (str "echo") r (by decide)
  simp only [handle, hc, halpha, hsplit]
  rfl

theorem handle_arg_ls (w : World) (fs : FS) (dir : WorkingDir)
    (line r : Str) (htrim : trim line = str "ls" ++ ' ' :: r)
    (halpha : w.isAlphanumeric 'l' = true) :
    handle w fs dir line =
      match ls w dir (some r) with
      | .error e => .error e
      | .ok o => .ok ({ out := some o }, fs) := by
  have hc : trim line = 'l' :: (str "s" ++ ' ' :: r) := by rw [htrim]; rfl
  have hsplit : splitOnce ' ' ('l' :: (str "s" ++ ' ' :: r)) =
      some (str "ls", r) := splitOnce_append ' ' (str "ls") r (by decide)
  simp only [handle, hc, halpha, hsplit]
  rfl

theorem handle_arg_cd (w : World) (fs : FS) (dir : WorkingDir)
    (line r : Str) (htrim : trim line = str "cd" ++ ' ' :: r)
    (halpha : w.isAlphanumeric 'c' = true) :
    handle w fs dir line =
      match cd w dir r with
      | .error e => .error e
      | .ok d => .ok ({ dir := some d }, fs) := by
  have hc : trim line = 'c' :: (str "d" ++ ' ' :: r) := by rw [htrim]; rfl
  have hsplit : splitOnce ' ' ('c' :: (str "d" ++ ' ' :: r)) =
      some (str "cd", r) := splitOnce_append ' ' (str "cd") r (by decide)
  simp only [handle, hc, halpha, hsplit]
  rfl

theorem handle_parse_none (w : World) (fs : FS) (dir : WorkingDir)
    (line : Str) (c : Char) (cs : Str) (htrim : trim line = c :: cs)
    (halpha : w.isAlphanumeric c = true)
    (hsplit : splitOnce ' ' (c :: cs) = none)
    (hmem : c :: cs ∉ COMMANDS) :
    handle w fs dir line = .error [str "failed to parse line"] := by
  simp only [COMMANDS, List.mem_cons, List.not_mem_nil, or_false] at hmem
  push_neg at hmem
  obtain ⟨h1, h2, h3, h4, h5, h6, h7, h8⟩ := hmem
  simp only [handle, htrim, halpha, hsplit]
  rw [if_neg (by decide : ¬(true = false)), if_neg h1, if_neg h2, if_neg h3,
    if_neg h4, if_neg h5, if_neg h6, if_neg h7, if_neg h8]

theorem handle_parse_some (w : World) (fs : FS) (dir : WorkingDir)
    (line : Str) (c : Char) (cs kw rest : Str) (htrim : trim line = c :: cs)
    (halpha : w.isAlphanumeric c = true)
    (hsplit : splitOnce ' ' (c :: cs) = some (kw, rest))
    (hmem : kw ∉ COMMANDS) :
    handle w fs dir line = .error [str "failed to parse line"] := by
  simp only [COMMANDS, List.mem_cons, List.not_mem_nil, or_false] at hmem
  push_neg at hmem
  obtain ⟨h1, h2, h3, h4, h5, h6, h7, h8⟩ := hmem
  simp only [handle, htrim, halpha, hsplit]
  rw [if_neg (by decide : ¬(true = false)), if_neg h1, if_neg h2, if_neg h3,
    if_neg h4, if_neg h5, if_neg h6, if_neg h7, if_neg h8]

theorem rsplitOnce_eq_none_of_not_mem (c : Char) (s : Str) (h : c ∉ s) :
    rsplitOnce c s = none := by
  induction s with
  | nil => rfl
  | cons x xs ih =>
    have hx : ¬x = c := by
      intro he; exact h (he ▸ List.mem_cons_self x xs)
    have hxs : c ∉ xs := fun hm => h (List.mem_cons_of_mem x hm)
    have hstep : rsplitOnce c (x :: xs) = (match rsplitOnce c xs with
        | some (l, r) => some (x :: l, r)
        | none => if x = c then some ([], xs) else none) := rfl
    rw [hstep, ih hxs, if_neg hx]

theorem not_mem_of_rsplitOnce_eq_none (c : Char) :
    ∀ s : Str, rsplitOnce c s = none → c ∉ s := by
  intro s
  induction s with
  | nil => intro _; exact List.not_mem_nil c
  | cons x xs ih =>
    intro h
    have hstep : rsplitOnce c (x :: xs) = (match rsplitOnce c xs with
        | some (l, r) => some (x :: l, r)
        | none => if x = c then some ([], xs) else none) := rfl
    rw [hstep] at h
    cases hr : rsplitOnce c xs with
    | some p =>
      obtain ⟨l1, r1⟩ := p
      simp only [hr] at h
      simp at h
    | none =>
      simp only [hr] at h
      by_cases hx : x = c
      · rw [if_pos hx] at h; simp at h
      · rw [if_neg hx] at h
        intro hm
        rcases List.mem_cons.mp hm with h1 | h2
        · exact hx h1.symm
        · exact ih hr h2

theorem rsplitOnce_sound (c : Char) : ∀ (s l r : Str),
    rsplitOnce c s = some (l, r) → s = l ++ c :: r ∧ c ∉ r := by
  intro s
  induction s with
  | nil => intro l r h; simp [rsplitOnce] at h
  | cons x xs ih =>
    intro l r h
    have hstep : rsplitOnce c (x :: xs) = (match rsplitOnce c xs with
        | some (l, r) => some (x :: l, r)
        | none => if x = c then some ([], xs) else none) := rfl
    rw [hstep] at h
    cases hr : rsplitOnce c xs with
    | some p =>
      obtain ⟨l1, r1⟩ := p
      simp only [hr] at h
      injection h with h'
      have hL : x :: l1 = l := congrArg Prod.fst h'
      have hR : r1 = r := congrArg Prod.snd h'
      subst hL
      subst hR
      obtain ⟨hxs, hnm⟩ := ih l1 r1 hr
      exact ⟨by rw [List.cons_append, hxs], hnm⟩
    | none =>
      simp only [hr] at h
      by_cases hx : x = c
      · rw [if_pos hx] at h
        injection h with h'
        have hL : ([] : Str) = l := congrArg Prod.fst h'
        have hR : xs = r := congrArg Prod.snd h'
        subst hL
        subst hR
        exact ⟨by rw [hx]; rfl, not_mem_of_rsplitOnce_eq_none c xs hr⟩
      · rw [if_neg hx] at h
        simp at h

theorem rsplitOnce_complete (c : Char) (r : Str) (hr : c ∉ r) :
    ∀ l : Str, rsplitOnce c (l ++ c :: r) = some (l, r) := by
  intro l
  induction l with
  | nil =>
    have h0 : rsplitOnce c r = none := rsplitOnce_eq_none_of_not_mem c r hr
    have hstep : rsplitOnce c ([] ++ c :: r) = (match rsplitOnce c r with
        | some (l2, r2) => some (c :: l2, r2)
        | none => if c = c then some ([], r) else none) := rfl
    rw [hstep, h0, if_pos rfl]
  | cons x xs ih =>
    have hstep : rsplitOnce c ((x :: xs) ++ c :: r) =
        (match rsplitOnce c (xs ++ c :: r) with
        | some (l2, r2) => some (x :: l2, r2)
        | none => if x = c then some ([], xs ++ c :: r) else none) := rfl
    rw [hstep, ih]

theorem rsplitOnce_isSome_of_mem (c : Char) : ∀ s : Str, c ∈ s →
    (rsplitOnce c s).isSome := by
  intro s
  induction s with
  | nil => intro h; simp at h
  | cons x xs ih =>
    intro h
    have hstep : rsplitOnce c (x :: xs) = (match rsplitOnce c xs with
        | some (l, r) => some (x :: l, r)
        | none => if x = c then some ([], xs) else none) := rfl
    rw [hstep]
    cases hr : rsplitOnce c xs with
    | some p =>
      obtain ⟨l1, r1⟩ := p
      simp
    | none =>
      have hx : x = c := by
        rcases List.mem_cons.mp h with h1 | h2
        · exact h1.symm
        · exact absurd h2 (not_mem_of_rsplitOnce_eq_none c xs hr)
      simp [hx]

theorem lookupFS_fsWrite (fs : FS) (p v : Str) :
    lookupFS (fsWrite fs p v) p = some v := by
  simp [fsWrite, lookupFS]

theorem handle_bare_pwd (w : World) (fs : FS) (dir : WorkingDir)
    (line : Str) (htrim : trim line = str "pwd")
    (halpha : w.isAlphanumeric 'p' = true) :
    handle w fs dir line = .ok ({ out := some (pwd dir) }, fs) := by
  have hc : trim line = 'p' :: str "wd" := by rw [htrim]; rfl
  simp only [handle, hc, halpha]
  rfl

theorem openDir_path {w : World} {q : Str} {d : WorkingDir}
    (h : WorkingDir.openDir w q = .ok d) : w.canonicalize q = .ok d.path := by
  unfold WorkingDir.openDir at h
  cases hc : w.canonicalize q with
  | error e => simp only [hc] at h; simp at h
  | ok c =>
    simp only [hc] at h
    cases ho : w.fileOpen c with
    | error e => simp only [ho] at h; simp at h
    | ok u =>
      simp only [ho] at h
      injection h with h'
      rw [← h']

theorem runLines_cons (w : World) (st : LoopState) (l : Str) (ls : List Str) :
    runLines w st (l :: ls) =
      (match (stepLine w st l).exitCode with
       | some _ => stepLine w st l
       | none => runLines w (stepLine w st l) ls) := rfl

/-- The initial loop state used by concrete witnesses. -/
def st0 : LoopState := ⟨⟨str "/"⟩, [], [], [], none⟩

/-- Claim C5: a blank or whitespace-only line is a no-effect success; a line
whose first non-whitespace character is not alphanumeric fails with the text
`line must start with an alphanumeric character or whitespace`; a line whose
keyword (the text before the first space, or the whole trimmed line) matches
none of the eight commands fails with `failed to parse line`. -/
theorem c5_parse_errors :
    (∀ (w : World) (fs : FS) (dir : WorkingDir) (line : Str),
      trim line = [] → handle w fs dir line = .ok (noEffect, fs)) ∧
    (∀ (w : World) (fs : FS) (dir : WorkingDir) (line : Str) (c : Char)
      (cs : Str), trim line = c :: cs → w.isAlphanumeric c = false →
      handle w fs dir line =
        .error [str "line must start with an alphanumeric character or whitespace"]) ∧
    (∀ (w : World) (fs : FS) (dir : WorkingDir) (line : Str) (c : Char)
      (cs : Str), trim line = c :: cs → w.isAlphanumeric c = true →
      splitOnce ' ' (c :: cs) = none → c :: cs ∉ COMMANDS →
      handle w fs dir line = .error [str "failed to parse line"]) ∧
    (∀ (w : World) (fs : FS) (dir : WorkingDir) (line : Str) (c : Char)
      (cs kw rest : Str), trim line = c :: cs → w.isAlphanumeric c = true →
      splitOnce ' ' (c :: cs) = some (kw, rest) → kw ∉ COMMANDS →
      handle w fs dir line = .error [str "failed to parse line"]) :=
  ⟨handle_blank, handle_not_alnum, handle_parse_none, handle_parse_some⟩

/-- Witness for C5: a whitespace-only line, a `!x` line, and the unknown
keywords `frobnicate` and `frobnicate now`, in the benign world. -/
theorem c5_parse_errors_witness :
    handle w0 [] ⟨str "/"⟩ (str "   ") = .ok (noEffect, []) ∧
    handle w0 [] ⟨str "/"⟩ (str "!x") =
      .error [str "line must start with an alphanumeric character or whitespace"] ∧
    handle w0 [] ⟨str "/"⟩ (str "frobnicate") =
      .error [str "failed to parse line"] ∧
    handle w0 [] ⟨str "/"⟩ (str "frobnicate now") =
      .error [str "failed to parse line"] :=
  ⟨c5_parse_errors.1 w0 [] ⟨str "/"⟩ (str "   ") (by decide),
   c5_parse_errors.2.1 w0 [] ⟨str "/"⟩ (str "!x") '!' (str "x")
     (by decide) (by decide),
   c5_parse_errors.2.2.1 w0 [] ⟨str "/"⟩ (str "frobnicate") 'f'
     (str "robnicate") (by decide) (by decide) (by decide) (by decide),
   c5_parse_errors.2.2.2 w0 [] ⟨str "/"⟩ (str "frobnicate now") 'f'
     (str "robnicate now") (str "frobnicate") (str "now") (by decide)
     (by decide) (by decide) (by decide)⟩

/-- C4 counterexample: `echo foo` is a recognized command whose argument
violates echo's required shape (no `>`), yet it fails with `missing `>`` and
not with echo's usage string, so the claim's echo case is false. -/
theorem c4_counterexample :
    handle w0 [] ⟨str "/"⟩ (str "echo foo") = .error [str "missing `>`"] ∧
    [str "missing `>`"] ≠ [ECHO_USAGE] :=
  ⟨rfl, by decide⟩

/-- Claim C4, amended: an argument after `exit`, `help` or `pwd`, and a
missing argument after `accept`, `cat` or `echo`, fail with that command's
fixed usage string shown verbatim; an `echo` argument lacking `>` instead
fails with `missing `>`` (not the usage string); `ls` accepts any argument
as a path and has no usage error. -/
theorem c4_usage_errors :
    (∀ (w : World) (fs : FS) (dir : WorkingDir) (line r : Str),
      trim line = str "exit" ++ ' ' :: r → w.isAlphanumeric 'e' = true →
      handle w fs dir line = .error [EXIT_USAGE]) ∧
    (∀ (w : World) (fs : FS) (dir : WorkingDir) (line r : Str),
      trim line = str "help" ++ ' ' :: r → w.isAlphanumeric 'h' = true →
      handle w fs dir line = .error [HELP_USAGE]) ∧
    (∀ (w : World) (fs : FS) (dir : WorkingDir) (line r : Str),
      trim line = str "pwd" ++ ' ' :: r → w.isAlphanumeric 'p' = true →
      handle w fs dir line = .error [PWD_USAGE]) ∧
    (∀ (w : World) (fs : FS) (dir : WorkingDir) (line : Str),
      trim line = str "accept" → w.isAlphanumeric 'a' = true →
      handle w fs dir line = .error [ACCEPT_USAGE]) ∧
    (∀ (w : World) (fs : FS) (dir : WorkingDir) (line : Str),
      trim line = str "cat" → w.isAlphanumeric 'c' = true →
      handle w fs dir line = .error [CAT_USAGE]) ∧
    (∀ (w : World) (fs : FS) (dir : WorkingDir) (line : Str),
      trim line = str "echo" → w.isAlphanumeric 'e' = true →
      handle w fs dir line = .error [ECHO_USAGE]) ∧
    (∀ (w : World) (fs : FS) (dir : WorkingDir) (line r : Str),
      trim line = str "echo" ++ ' ' :: r → w.isAlphanumeric 'e' = true →
      '>' ∉ r → handle w fs dir line = .error [str "missing `>`"]) ∧
    (∀ (w : World) (fs : FS) (dir : WorkingDir) (line r : Str),
      trim line = str "ls" ++ ' ' :: r → w.isAlphanumeric 'l' = true →
      handle w fs dir line =
        match ls w dir (some r) with
        | .error e => .error e
        | .ok o => .ok ({ out := some o }, fs)) := by
  refine ⟨handle_arg_exit, handle_arg_help, handle_arg_pwd, handle_bare_accept,
    handle_bare_cat, handle_bare_echo, ?_, handle_arg_ls⟩
  intro w fs dir line r htrim halpha hgt
  rw [handle_arg_echo w fs dir line r htrim halpha]
  unfold echo
  rw [rsplitOnce_eq_none_of_not_mem '>' r hgt]

/-- Witness for C4 at concrete inputs in the benign world. -/
theorem c4_usage_errors_witness :
    handle w0 [] ⟨str "/"⟩ (str "exit now") = .error [EXIT_USAGE] ∧
    handle w0 [] ⟨str "/"⟩ (str "help me") = .error [HELP_USAGE] ∧
    handle w0 [] ⟨str "/"⟩ (str "pwd extra") = .error [PWD_USAGE] ∧
    handle w0 [] ⟨str "/"⟩ (str "accept") = .error [ACCEPT_USAGE] ∧
    handle w0 [] ⟨str "/"⟩ (str "cat") = .error [CAT_USAGE] ∧
    handle w0 [] ⟨str "/"⟩ (str "echo") = .error [ECHO_USAGE] ∧
    handle w0 [] ⟨str "/"⟩ (str "echo foo") = .error [str "missing `>`"] ∧
    handle w0 [] ⟨str "/"⟩ (str "ls a") =
      (match ls w0 ⟨str "/"⟩ (some (str "a")) with
       | .error e => .error e
       | .ok o => .ok ({ out := some o }, ([] : FS))) :=
  ⟨c4_usage_errors.1 w0 [] ⟨str "/"⟩ (str "exit now") (str "now")
     (by decide) (by decide),
   c4_usage_errors.2.1 w0 [] ⟨str "/"⟩ (str "help me") (str "me")
     (by decide) (by decide),
   c4_usage_errors.2.2.1 w0 [] ⟨str "/"⟩ (str "pwd extra") (str "extra")
     (by decide) (by decide),
   c4_usage_errors.2.2.2.1 w0 [] ⟨str "/"⟩ (str "accept")
     (by decide) (by decide),
   c4_usage_errors.2.2.2.2.1 w0 [] ⟨str "/"⟩ (str "cat")
     (by decide) (by decide),
   c4_usage_errors.2.2.2.2.2.1 w0 [] ⟨str "/"⟩ (str "echo")
     (by decide) (by decide),
   c4_usage_errors.2.2.2.2.2.2.1 w0 [] ⟨str "/"⟩ (str "echo foo") (str "foo")
     (by decide) (by decide) (by decide),
   c4_usage_errors.2.2.2.2.2.2.2 w0 [] ⟨str "/"⟩ (str "ls a") (str "a")
     (by decide) (by decide)⟩

/-- Claim C6: any line whose interpretation fails leaves the working directory
and file store exactly as they were, appends the rendered error to the
diagnostic stream, does not set an exit code, and the loop proceeds to the
next input line. -/
theorem c6_repl_error_recovery (w : World) (st : LoopState) (line : Str)
    (ls : List Str) (e : Err) (hexit : st.exitCode = none)
    (h : handle w st.fs st.dir line = .error e) :
    stepLine w st line = { st with diag := st.diag ++ [e] } ∧
    runLines w st (line :: ls) =
      runLines w { st with diag := st.diag ++ [e] } ls := by
  have hstep : stepLine w st line = { st with diag := st.diag ++ [e] } := by
    unfold stepLine
    rw [h]
  refine ⟨hstep, ?_⟩
  rw [runLines_cons, hstep]
  simp [hexit]

/-- Witness for C6: a failing `frobnicate` line in the benign world. -/
theorem c6_repl_error_recovery_witness :
    stepLine w0 st0 (str "frobnicate") =
      { st0 with diag := st0.diag ++ [[str "failed to parse line"]] } ∧
    runLines w0 st0 [str "frobnicate"] =
      runLines w0 { st0 with diag := st0.diag ++ [[str "failed to parse line"]] } [] :=
  c6_repl_error_recovery w0 st0 (str "frobnicate") []
    [str "failed to parse line"] rfl rfl

/-- Claim C8: bare `cd` never changes the working directory and never errors; a
successful `cd path` produces a fresh `WorkingDir` whose path is the
canonicalized resolution of the unquoted argument (resolved directly when
absolute, otherwise joined onto the working directory), and a subsequent
`pwd` through the loop reports exactly that path. -/
theorem c8_cd_pwd :
    (∀ (w : World) (fs : FS) (dir : WorkingDir) (line : Str),
      trim line = str "cd" → w.isAlphanumeric 'c' = true →
      handle w fs dir line = .ok (noEffect, fs)) ∧
    (∀ (w : World) (dir : WorkingDir) (p : Str) (d2 : WorkingDir),
      cd w dir p = .ok d2 →
      w.canonicalize (if isAbsolute (unquote p) then unquote p
        else join dir.path (unquote p)) = .ok d2.path) ∧
    (∀ (w : World) (st : LoopState) (line p : Str) (d2 : WorkingDir),
      st.exitCode = none → trim line = str "cd" ++ ' ' :: p →
      w.isAlphanumeric 'c' = true → w.isAlphanumeric 'p' = true →
      cd w st.dir p = .ok d2 →
      runLines w st [line, str "pwd"] =
        { st with dir := d2, out := st.out ++ [d2.path] }) := by
  refine ⟨handle_bare_cd, ?_, ?_⟩
  · intro w dir p d2 h
    rw [show cd w dir p = (if isAbsolute (unquote p) then
        WorkingDir.openDir w (unquote p)
      else WorkingDir.openDir w (join dir.path (unquote p))) from rfl] at h
    by_cases hab : isAbsolute (unquote p) = true
    · rw [if_pos hab] at h
      rw [if_pos hab]
      exact openDir_path h
    · rw [if_neg hab] at h
      rw [if_neg hab]
      exact openDir_path h
  · intro w st line p d2 hexit htrim ha hp hcd
    have h1 : handle w st.fs st.dir line = .ok ({ dir := some d2 }, st.fs) := by
      rw [handle_arg_cd w st.fs st.dir line p htrim ha, hcd]
    have hstep1 : stepLine w st line = { st with dir := d2 } := by
      unfold stepLine
      rw [h1]
    have h2 : handle w st.fs d2 (str "pwd") =
        .ok ({ out := some (pwd d2) }, st.fs) :=
      handle_bare_pwd w st.fs d2 (str "pwd") (by decide) hp
    have hstep2 : stepLine w { st with dir := d2 } (str "pwd") =
        { st with dir := d2, out := st.out ++ [d2.path] } := by
      unfold stepLine
      rw [h2]
      rfl
    rw [hexit] at hstep2
    rw [runLines_cons, hstep1]
    simp only [hexit]
    rw [runLines_cons, hstep2]
    rfl

/-- Witness for C8: `cd a` then `pwd` from `/` in the benign world. -/
theorem c8_cd_pwd_witness :
    handle w0 [] ⟨str "/"⟩ (str "cd") = .ok (noEffect, []) ∧
    w0.canonicalize (if isAbsolute (unquote (str "a")) then unquote (str "a")
      else join (str "/") (unquote (str "a"))) = .ok (WorkingDir.mk (str "/a")).path ∧
    runLines w0 st0 [str "cd a", str "pwd"] =
      { st0 with dir := ⟨str "/a"⟩, out := st0.out ++ [(WorkingDir.mk (str "/a")).path] } :=
  ⟨c8_cd_pwd.1 w0 [] ⟨str "/"⟩ (str "cd") (by decide) (by decide),
   c8_cd_pwd.2.1 w0 ⟨str "/"⟩ (str "a") ⟨str "/a"⟩ rfl,
   c8_cd_pwd.2.2 w0 st0 (str "cd a") (str "a") ⟨str "/a"⟩ rfl (by decide)
     (by decide) (by decide) rfl⟩

/-- Claim C3: `echo` splits its argument at the last `>` (characterized
exactly: the right half contains no further `>`), unquotes both halves, and
overwrites the target with exactly the unquoted left text and nothing else
(no trailing newline); `cat` of the target then returns exactly that text,
for any prior store contents — so a second `echo` to the same target fully
replaces the first. -/
theorem c3_echo_overwrite_roundtrip :
    (∀ (args l r : Str), rsplitOnce '>' args = some (l, r) ↔
      (args = l ++ '>' :: r ∧ '>' ∉ r)) ∧
    (∀ args : Str, '>' ∈ args → (rsplitOnce '>' args).isSome) ∧
    (∀ (w : World) (fs : FS) (dir : WorkingDir) (t parg : Str),
      '>' ∉ parg → w.writeGate (join dir.path (unquote parg)) = .ok () →
      echo w fs dir (t ++ '>' :: parg) =
        .ok (fsWrite fs (join dir.path (unquote parg)) (unquote t))) ∧
    (∀ (fs : FS) (dir : WorkingDir) (t parg : Str),
      cat (fsWrite fs (join dir.path (unquote parg)) (unquote t)) dir parg =
        .ok (unquote t)) ∧
    (∀ (w : World) (fs : FS) (dir : WorkingDir) (t1 t2 parg : Str),
      '>' ∉ parg → w.writeGate (join dir.path (unquote parg)) = .ok () →
      echo w (fsWrite fs (join dir.path (unquote parg)) (unquote t1)) dir
          (t2 ++ '>' :: parg) =
        .ok (fsWrite (fsWrite fs (join dir.path (unquote parg)) (unquote t1))
          (join dir.path (unquote parg)) (unquote t2))) := by
  have hecho : ∀ (w : World) (fs : FS) (dir : WorkingDir) (t parg : Str),
      '>' ∉ parg → w.writeGate (join dir.path (unquote parg)) = .ok () →
      echo w fs dir (t ++ '>' :: parg) =
        .ok (fsWrite fs (join dir.path (unquote parg)) (unquote t)) := by
    intro w fs dir t parg hgt hw
    simp only [echo, rsplitOnce_complete '>' parg hgt t, hw]
  refine ⟨?_, rsplitOnce_isSome_of_mem '>', hecho, ?_, ?_⟩
  · intro args l r
    constructor
    · exact rsplitOnce_sound '>' args l r
    · rintro ⟨ha, hb⟩
      subst ha
      exact rsplitOnce_complete '>' r hb l
  · intro fs dir t parg
    simp only [cat, fsReadRaw, lookupFS_fsWrite]
  · intro w fs dir t1 t2 parg hgt hw
    exact hecho w _ dir t2 parg hgt hw

/-- Witness for C3: `echo hi > f` then `cat f` from `/`, and a replacing
second write, in the benign world. -/
theorem c3_echo_overwrite_roundtrip_witness :
    (rsplitOnce '>' (str "a>b>c") = some (str "a>b", str "c") ↔
      (str "a>b>c" = str "a>b" ++ '>' :: str "c" ∧ '>' ∉ str "c")) ∧
    (rsplitOnce '>' (str "x>y")).isSome ∧
    echo w0 [] ⟨str "/"⟩ (str "hi " ++ '>' :: str " f") =
      .ok (fsWrite [] (join (str "/") (unquote (str " f")))
        (unquote (str "hi "))) ∧
    cat (fsWrite [] (join (str "/") (unquote (str " f"))) (unquote (str "hi ")))
        ⟨str "/"⟩ (str " f") = .ok (unquote (str "hi ")) ∧
    echo w0 (fsWrite [] (join (str "/") (unquote (str " f")))
        (unquote (str "hi "))) ⟨str "/"⟩ (str "other" ++ '>' :: str " f") =
      .ok (fsWrite (fsWrite [] (join (str "/") (unquote (str " f")))
        (unquote (str "hi "))) (join (str "/") (unquote (str " f")))
        (unquote (str "other"))) :=
  ⟨c3_echo_overwrite_roundtrip.1 (str "a>b>c") (str "a>b") (str "c"),
   c3_echo_overwrite_roundtrip.2.1 (str "x>y") (by decide),
   c3_echo_overwrite_roundtrip.2.2.1 w0 [] ⟨str "/"⟩ (str "hi ") (str " f")
     (by decide) rfl,
   c3_echo_overwrite_roundtrip.2.2.2.1 [] ⟨str "/"⟩ (str "hi ") (str " f"),
   c3_echo_overwrite_roundtrip.2.2.2.2 w0 [] ⟨str "/"⟩ (str "hi ")
     (str "other") (str " f") (by decide) rfl⟩

/-- A world whose accepted stream read fails with an OS-style error that does
not mention any path. -/
def w7 : World := { w0 with readStream := fun _ => .error [str "connection reset"] }

/-- C7 counterexample: with the open and accept stages succeeding and the
stream read failing, `accept` reports `failed to read from stream` — the
stage, but not the path `/sock`, appears anywhere in the error chain, so the
claim's "naming the path" fails for the read stage. -/
theorem c7_counterexample :
    accept w7 ⟨str "/"⟩ (str "sock") =
      .error [str "failed to read from stream", str "connection reset"] ∧
    (∀ m ∈ [str "failed to read from stream", str "connection reset"],
      ¬ str "/sock" <:+: m) :=
  ⟨rfl, by decide⟩

/-- Claim C7, amended: `accept` failures at the open and accept stages surface
as errors naming both the stage and the path; a failure at the stream-read
stage surfaces as `failed to read from stream`, naming the stage only; on
success `accept` returns exactly the bytes of the single accepted peer
stream. -/
theorem c7_accept_stages :
    (∀ (w : World) (dir : WorkingDir) (path : Str) (e : Err),
      w.openListener (join dir.path (unquote path)) = .error e →
      accept w dir path = .error (ctx (str "failed to open `" ++
        join dir.path (unquote path) ++ str "`") e)) ∧
    (∀ (w : World) (dir : WorkingDir) (path : Str) (e : Err),
      w.openListener (join dir.path (unquote path)) = .ok () →
      w.acceptConn (join dir.path (unquote path)) = .error e →
      accept w dir path = .error (ctx (str "failed to accept connection on `" ++
        join dir.path (unquote path) ++ str "`") e)) ∧
    (∀ (w : World) (dir : WorkingDir) (path : Str) (e : Err),
      w.openListener (join dir.path (unquote path)) = .ok () →
      w.acceptConn (join dir.path (unquote path)) = .ok () →
      w.readStream (join dir.path (unquote path)) = .error e →
      accept w dir path = .error (ctx (str "failed to read from stream") e)) ∧
    (∀ (w : World) (dir : WorkingDir) (path : Str) (b : Str),
      w.openListener (join dir.path (unquote path)) = .ok () →
      w.acceptConn (join dir.path (unquote path)) = .ok () →
      w.readStream (join dir.path (unquote path)) = .ok b →
      accept w dir path = .ok b) := by
  refine ⟨?_, ?_, ?_, ?_⟩
  · intro w dir path e h1
    simp only [accept, h1]
  · intro w dir path e h1 h2
    simp only [accept, h1, h2]
  · intro w dir path e h1 h2 h3
    simp only [accept, h1, h2, h3]
  · intro w dir path b h1 h2 h3
    simp only [accept, h1, h2, h3]

/-- A world whose read/write listener open fails. -/
def w7b : World := { w0 with openListener := fun _ => .error [str "bad file descriptor"] }

/-- Witness for C7: a successful accept returning the peer's bytes, and an
open-stage failure naming the path. -/
theorem c7_accept_stages_witness :
    accept w0 ⟨str "/"⟩ (str "sock") = .ok [] ∧
    accept w7b ⟨str "/"⟩ (str "sock") =
      .error (ctx (str "failed to open `" ++ join (str "/") (unquote (str "sock")) ++
        str "`") [str "bad file descriptor"]) :=
  ⟨c7_accept_stages.2.2.2 w0 ⟨str "/"⟩ (str "sock") [] rfl rfl rfl,
   c7_accept_stages.1 w7b ⟨str "/"⟩ (str "sock") [str "bad file descriptor"] rfl⟩

theorem handle_ok_shapes {w : World} {fs : FS} {dir : WorkingDir}
    {line : Str} {eff : Effect} {fs2 : FS}
    (h : handle w fs dir line = .ok (eff, fs2)) :
    eff = noEffect ∨ eff = exitCommand ∨ (∃ o, eff = { out := some o }) ∨
      (∃ d, eff = { dir := some d }) := by
  simp only [handle] at h
  cases htl : trim line with
  | nil =>
    simp only [htl] at h
    injection h with h'
    injection h' with hE hF
    subst hE
    exact Or.inl rfl
  | cons c cs =>
    simp only [htl] at h
    cases hb : w.isAlphanumeric c with
    | false =>
      rw [hb, if_pos rfl] at h
      exact absurd h (by simp)
    | true =>
      rw [hb, if_neg (by decide : ¬(true = false))] at h
      cases hsp : splitOnce ' ' (c :: cs) with
      | none =>
        simp only [hsp] at h
        repeat' split at h
        all_goals
          first
            | exact Except.noConfusion h
            | (injection h with h'
               injection h' with hE hF
               subst hE
               first
                 | exact Or.inl rfl
                 | exact Or.inr (Or.inl rfl)
                 | exact Or.inr (Or.inr (Or.inl ⟨_, rfl⟩))
                 | exact Or.inr (Or.inr (Or.inr ⟨_, rfl⟩)))
      | some p =>
        obtain ⟨kw, rest⟩ := p
        simp only [hsp] at h
        repeat' split at h
        all_goals
          first
            | exact Except.noConfusion h
            | (injection h with h'
               injection h' with hE hF
               subst hE
               first
                 | exact Or.inl rfl
                 | exact Or.inr (Or.inl rfl)
                 | exact Or.inr (Or.inr (Or.inl ⟨_, rfl⟩))
                 | exact Or.inr (Or.inr (Or.inr ⟨_, rfl⟩)))

/-- Claim C10: every Effect returned by a successful dispatch populates at most
one of its three channels; an exit channel, when set, is exactly code 0 with
no other channel (the `exit` command's effect); a set directory channel
excludes output and exit; a set output channel excludes directory and exit;
blank lines and bare `cd` set none; an `echo` dispatch success sets none. -/
theorem c10_effect_channels :
    (∀ (w : World) (fs : FS) (dir : WorkingDir) (line : Str) (eff : Effect)
      (fs2 : FS), handle w fs dir line = .ok (eff, fs2) →
      ((eff.dir = none ∧ eff.out = none) ∨ (eff.dir = none ∧ eff.exit = none) ∨
        (eff.out = none ∧ eff.exit = none)) ∧
      (∀ code, eff.exit = some code → code = 0) ∧
      (eff.exit.isSome → eff = exitCommand) ∧
      (eff.dir.isSome → eff.out = none ∧ eff.exit = none) ∧
      (eff.out.isSome → eff.dir = none ∧ eff.exit = none)) ∧
    (∀ (w : World) (fs : FS) (dir : WorkingDir) (line : Str),
      trim line = [] → handle w fs dir line = .ok (noEffect, fs)) ∧
    (∀ (w : World) (fs : FS) (dir : WorkingDir) (line : Str),
      trim line = str "cd" → w.isAlphanumeric 'c' = true →
      handle w fs dir line = .ok (noEffect, fs)) ∧
    (∀ (w : World) (fs : FS) (dir : WorkingDir) (line r : Str) (eff : Effect)
      (fs2 : FS), trim line = str "echo" ++ ' ' :: r →
      w.isAlphanumeric 'e' = true →
      handle w fs dir line = .ok (eff, fs2) → eff = noEffect) := by
  refine ⟨?_, handle_blank, handle_bare_cd, ?_⟩
  · intro w fs dir line eff fs2 h
    rcases handle_ok_shapes h with he | he | ⟨o, he⟩ | ⟨d, he⟩ <;> subst he <;>
      refine ⟨?_, ?_, ?_, ?_, ?_⟩ <;> simp [noEffect, exitCommand]
  · intro w fs dir line r eff fs2 htrim halpha h
    rw [handle_arg_echo w fs dir line r htrim halpha] at h
    cases hec : echo w fs dir r with
    | error e =>
      simp only [hec] at h
      simp at h
    | ok fs3 =>
      simp only [hec] at h
      injection h with h'
      injection h' with hE hF
      exact hE.symm

/-- Witness for C10: the invariants at a concrete `pwd` success and the
`echo` no-channel case at a concrete write, in the benign world. -/
theorem c10_effect_channels_witness :
    ((({ out := some (str "/") } : Effect).dir = none ∧
      ({ out := some (str "/") } : Effect).out = none) ∨
     (({ out := some (str "/") } : Effect).dir = none ∧
      ({ out := some (str "/") } : Effect).exit = none) ∨
     (({ out := some (str "/") } : Effect).out = none ∧
      ({ out := some (str "/") } : Effect).exit = none)) ∧
    noEffect = noEffect :=
  ⟨((c10_effect_channels.1 w0 [] ⟨str "/"⟩ (str "pwd")
      { out := some (str "/") } [] rfl).1),
   (c10_effect_channels.2.2.2 w0 [] ⟨str "/"⟩ (str "echo hi > f")
      (str "hi > f") noEffect (fsWrite [] (str "/f") (str "hi"))
      (by decide) (by decide) rfl)⟩

/-- Modelled from the spec: `resolve(base, path)` — if `path` is absolute,
resolve it directly via `open`; otherwise join it onto `base` and resolve the
result via `open`.  (The spec's resolution contract, rendered for comparison
with the handlers.) -/
def resolveSpec (w : World) (base p : Str) : Except Err WorkingDir :=
  if isAbsolute p then WorkingDir.openDir w p
  else WorkingDir.openDir w (join base p)

/-- Rendering of claim C2 for the `cat` handler: resolve the unquoted
argument via `open` first, then read the resolved path. -/
def catClaim (w : World) (fs : FS) (dir : WorkingDir) (path : Str) :
    Except Err Str :=
  match resolveSpec w dir.path (unquote path) with
  | .error e => .error e
  | .ok d =>
    match fsReadRaw fs d.path with
    | .error e => .error (ctx (str "failed to read `" ++ d.path ++ str "`") e)
    | .ok v => .ok v

/-- A world whose `File::open` readability check fails on every path. -/
def w2 : World := { w0 with fileOpen := fun _ => .error [str "no such file or directory"] }

/-- C2 counterexample: on a missing file, `cat` (which joins and reads
directly) and the claim's resolve-via-open-then-read pipeline produce
observably different errors, so `cat` does not resolve via `open`. -/
theorem c2_counterexample :
    cat [] ⟨str "/"⟩ (str "a") =
      .error [str "failed to read `/a`", str "no such file or directory"] ∧
    catClaim w2 [] ⟨str "/"⟩ (str "a") =
      .error [str "failed to open `/a`", str "no such file or directory"] ∧
    ([str "failed to read `/a`", str "no such file or directory"] : Err) ≠
      [str "failed to open `/a`", str "no such file or directory"] :=
  ⟨rfl, rfl, by decide⟩

/-- Claim C2, amended: only `cd` resolves via `open` — it is exactly the
spec's `resolve` applied to the unquoted argument; `accept`, `echo` and `ls`
never consult the canonicalize/open machinery (replacing those two oracles
leaves them unchanged), and `cat` consults no oracle at all: each joins the
unquoted argument onto the working directory (join itself using an absolute
argument directly) and passes the joined path straight to its filesystem
operation. -/
theorem c2_resolution :
    (∀ (w : World) (dir : WorkingDir) (p : Str),
      cd w dir p = resolveSpec w dir.path (unquote p)) ∧
    (∀ (w : World) (f : Str → Except Err Str) (g : Str → Except Err Unit)
      (dir : WorkingDir) (path : Str),
      accept { w with canonicalize := f, fileOpen := g } dir path =
        accept w dir path) ∧
    (∀ (w : World) (f : Str → Except Err Str) (g : Str → Except Err Unit)
      (fs : FS) (dir : WorkingDir) (args : Str),
      echo { w with canonicalize := f, fileOpen := g } fs dir args =
        echo w fs dir args) ∧
    (∀ (w : World) (f : Str → Except Err Str) (g : Str → Except Err Unit)
      (dir : WorkingDir) (path : Option Str),
      ls { w with canonicalize := f, fileOpen := g } dir path =
        ls w dir path) ∧
    (∀ (fs : FS) (dir : WorkingDir) (path : Str),
      cat fs dir path =
        match fsReadRaw fs (join dir.path (unquote path)) with
        | .error e => .error (ctx (str "failed to read `" ++
            join dir.path (unquote path) ++ str "`") e)
        | .ok v => .ok v) :=
  ⟨fun w dir p => rfl, fun w f g dir path => rfl, fun w f g fs dir args => rfl,
   fun w f g dir path => rfl, fun fs dir path => rfl⟩

end Wash
